import Mathlib

/-!
Shallow embedding of the `toy_vec` crate (`src/lib.rs`): a growable vector
`ToyVec<T: Default>` backed by a boxed slice, plus a borrowing iterator
`Iter`.  The boxed slice `Box<[T]>` is modelled as a `List T` whose length
is the capacity; `T: Default` is modelled by `Inhabited T` with `default`.
Rust slice indexing `elements[i]` panics when out of bounds; reads are
modelled with `List.getElem?` (in-boundedness of every indexing site is
stated separately and proved under the length invariant), and the write
`elements[i] = x` is modelled with `List.set` (which, like the source
under the proved in-bounds conditions, assigns index `i`).
-/

namespace ToyVecLib

/-- `pub struct ToyVec<T> { elements: Box<[T]>, len: usize }`. -/
structure ToyVec (T : Type) where
  elements : List T
  len : Nat
deriving DecidableEq, Repr

/-- `fn allocate_in_heap(size: usize) -> Box<[T]>`: a buffer of `size`
slots, each holding `T`'s default value. -/
def allocate_in_heap {T : Type} [Inhabited T] (size : Nat) : List T :=
  List.replicate size default

/-- `pub fn with_capacity(capacity: usize) -> Self`. -/
def ToyVec.with_capacity {T : Type} [Inhabited T] (capacity : Nat) : ToyVec T :=
  { elements := allocate_in_heap capacity, len := 0 }

/-- `pub fn new() -> Self`. -/
def ToyVec.new {T : Type} [Inhabited T] : ToyVec T :=
  ToyVec.with_capacity 0

/-- `pub fn capacity(&self) -> usize { self.elements.len() }`. -/
def ToyVec.capacity {T : Type} (v : ToyVec T) : Nat :=
  v.elements.length

/-- The `for (i, elem) in old_elements.into_vec().into_iter().enumerate()`
loop body of `grow`: writes the elements of `old` into `buf` at successive
indices starting from `i`. -/
def copy_from {T : Type} : List T → Nat → List T → List T
  | [], _, buf => buf
  | e :: rest, i, buf => copy_from rest (i + 1) (buf.set i e)

/-- `fn grow(&mut self)`: if capacity is 0, allocate a 1-slot buffer;
otherwise allocate a buffer of `capacity * 2` slots and move every old
slot's value into the same index of the new buffer. -/
def ToyVec.grow {T : Type} [Inhabited T] (v : ToyVec T) : ToyVec T :=
  if v.capacity = 0 then
    { v with elements := allocate_in_heap 1 }
  else
    { v with elements := copy_from v.elements 0 (allocate_in_heap (v.capacity * 2)) }

/-- `pub fn push(&mut self, element: T)`: grow when `len == capacity`,
then `self.elements[self.len] = element; self.len += 1`. -/
def ToyVec.push {T : Type} [Inhabited T] (v : ToyVec T) (element : T) : ToyVec T :=
  let w := if v.len = v.capacity then v.grow else v
  { elements := w.elements.set w.len element, len := w.len + 1 }

/-- `pub fn pop(&mut self) -> Option<T>`: `None` when `len == 0`, else
decrement `len`, `mem::replace` the vacated slot with the default value and
return the old slot value.  The returned pair is (result, updated vector). -/
def ToyVec.pop {T : Type} [Inhabited T] (v : ToyVec T) : Option T × ToyVec T :=
  if v.len = 0 then
    (none, v)
  else
    (v.elements[v.len - 1]?,
     { elements := v.elements.set (v.len - 1) default, len := v.len - 1 })

/-- `pub fn get(&self, index: usize) -> Option<&T>`. -/
def ToyVec.get {T : Type} (v : ToyVec T) (index : Nat) : Option T :=
  if index < v.len then v.elements[index]? else none

/-- `pub fn get_or(&self, index: usize, default: &T) -> &T`. -/
def ToyVec.get_or {T : Type} (v : ToyVec T) (index : Nat) (d : T) : T :=
  (v.get index).getD d

/-- `pub struct Iter<'vec, T> { elements: &'vec Box<[T]>, len: usize, pos: usize }`. -/
structure Iter (T : Type) where
  elements : List T
  len : Nat
  pos : Nat
deriving DecidableEq, Repr

/-- `pub fn iter(&self) -> Iter<T>`: borrow the buffer, snapshot `len`,
start at position 0. -/
def ToyVec.iter {T : Type} (v : ToyVec T) : Iter T :=
  { elements := v.elements, len := v.len, pos := 0 }

/-- `fn next(&mut self) -> Option<&T>` of `impl Iterator for Iter`:
`None` when `pos >= len`, else yield the element at `pos` and increment
`pos`.  The returned pair is (result, updated iterator). -/
def Iter.next {T : Type} (it : Iter T) : Option T × Iter T :=
  if it.pos ≥ it.len then
    (none, it)
  else
    (it.elements[it.pos]?, { it with pos := it.pos + 1 })

/-- The state transition of one `next()` call (discarding the yield). -/
def Iter.step {T : Type} (it : Iter T) : Iter T :=
  (it.next).2

/-- Folding `push` over a list of values: the effect of a sequence of
`push` calls. -/
def ToyVec.pushAll {T : Type} [Inhabited T] (v : ToyVec T) (xs : List T) : ToyVec T :=
  xs.foldl ToyVec.push v

/-- States reachable from the constructors by `push` and `pop`. -/
inductive Reachable {T : Type} [Inhabited T] : ToyVec T → Prop
  | new : Reachable ToyVec.new
  | with_capacity (n : Nat) : Reachable (ToyVec.with_capacity n)
  | push (v : ToyVec T) (x : T) : Reachable v → Reachable (v.push x)
  | pop (v : ToyVec T) : Reachable v → Reachable (v.pop).2

/-- The representation invariant: the live range fits in the buffer and
every slot past the live range holds the default (placeholder) value. -/
def Wf {T : Type} [Inhabited T] (v : ToyVec T) : Prop :=
  v.len ≤ v.elements.length ∧
  ∀ j, j < v.elements.length → v.len ≤ j → v.elements[j]? = some (default : T)

/-- In-boundedness of the write `self.elements[self.len] = element`
performed by `push` (after the conditional grow). -/
def ToyVec.pushIndexOk {T : Type} [Inhabited T] (v : ToyVec T) : Prop :=
  (if v.len = v.capacity then v.grow else v).len <
    (if v.len = v.capacity then v.grow else v).elements.length

/-- In-boundedness of the slot access `self.elements[self.len]` performed
by `pop` after the decrement (only reached when `len != 0`). -/
def ToyVec.popIndexOk {T : Type} (v : ToyVec T) : Prop :=
  v.len ≠ 0 → v.len - 1 < v.elements.length

/-- In-boundedness of the read `self.elements[index]` performed by `get`
(only reached when `index < len`). -/
def ToyVec.getIndexOk {T : Type} (v : ToyVec T) (index : Nat) : Prop :=
  index < v.len → index < v.elements.length

/-- In-boundedness of every write `self.elements[i] = elem` performed by
`grow`'s copy loop (one write per index of the old buffer, into the fresh
buffer of `capacity * 2` slots; the loop only runs when capacity is
non-zero). -/
def ToyVec.growIndexOk {T : Type} [Inhabited T] (v : ToyVec T) : Prop :=
  v.capacity ≠ 0 →
    ∀ i, i < v.elements.length →
      i < (allocate_in_heap (v.capacity * 2) : List T).length

/-- In-boundedness of the read `self.elements[self.pos]` performed by
`next` (only reached when `pos < len`). -/
def Iter.nextIndexOk {T : Type} (it : Iter T) : Prop :=
  it.pos < it.len → it.pos < it.elements.length

/-! ### Helper lemmas about the copy loop and `allocate_in_heap` -/

theorem length_copy_from {T : Type} (old : List T) :
    ∀ (i : Nat) (buf : List T), (copy_from old i buf).length = buf.length := by
  induction old with
  | nil => intro i buf; rfl
  | cons e rest ih =>
    intro i buf
    simpa [copy_from] using ih (i + 1) (buf.set i e)

theorem getElem?_copy_from {T : Type} (old : List T) :
    ∀ (i : Nat) (buf : List T), i + old.length ≤ buf.length →
      ∀ j, (copy_from old i buf)[j]? =
        if i ≤ j ∧ j < i + old.length then old[j - i]? else buf[j]? := by
  induction old with
  | nil =>
    intro i buf h j
    rw [copy_from, if_neg (by simp)]
  | cons e rest ih =>
    intro i buf h j
    have hi : i < buf.length := by simp at h; omega
    rw [copy_from, ih (i + 1) (buf.set i e)
      (by rw [List.length_set]; simp at h; omega)]
    rcases Nat.lt_trichotomy j i with hlt | heq | hgt
    · rw [if_neg (by omega), if_neg (by omega), List.getElem?_set_ne (by omega)]
    · subst heq
      rw [if_neg (by omega), if_pos (by simp only [List.length_cons]; omega)]
      simp [List.getElem?_set_self, hi]
    · by_cases hub : j < i + 1 + rest.length
      · rw [if_pos (by omega), if_pos (by simp only [List.length_cons]; omega)]
        have hji : j - i = (j - (i + 1)) + 1 := by omega
        rw [hji, List.getElem?_cons_succ]
      · rw [if_neg (by omega), if_neg (by simp only [List.length_cons]; omega),
          List.getElem?_set_ne (by omega)]

theorem length_allocate_in_heap {T : Type} [Inhabited T] (size : Nat) :
    (allocate_in_heap size : List T).length = size := by
  simp [allocate_in_heap]

theorem getElem?_allocate_in_heap {T : Type} [Inhabited T] (size j : Nat) :
    (allocate_in_heap size : List T)[j]? =
      if j < size then some default else none := by
  simp [allocate_in_heap, List.getElem?_replicate]

/-! ### Facts about `grow` -/

theorem ToyVec.grow_len {T : Type} [Inhabited T] (v : ToyVec T) :
    (v.grow).len = v.len := by
  unfold ToyVec.grow; split <;> rfl

theorem ToyVec.grow_capacity_zero {T : Type} [Inhabited T] (v : ToyVec T)
    (h : v.capacity = 0) : (v.grow).capacity = 1 := by
  unfold ToyVec.grow
  rw [if_pos h]
  simp [ToyVec.capacity, length_allocate_in_heap]

theorem ToyVec.grow_capacity_pos {T : Type} [Inhabited T] (v : ToyVec T)
    (h : v.capacity ≠ 0) : (v.grow).capacity = v.capacity * 2 := by
  unfold ToyVec.grow
  rw [if_neg h]
  simp only [ToyVec.capacity]
  rw [length_copy_from, length_allocate_in_heap]

theorem ToyVec.grow_getElem?_lt {T : Type} [Inhabited T] (v : ToyVec T)
    (h : v.capacity ≠ 0) (j : Nat) (hj : j < v.capacity) :
    (v.grow).elements[j]? = v.elements[j]? := by
  simp only [ToyVec.grow, if_neg h]
  rw [getElem?_copy_from v.elements 0 _
    (by rw [length_allocate_in_heap]; unfold ToyVec.capacity at *; omega)]
  rw [if_pos ⟨Nat.zero_le j, by unfold ToyVec.capacity at hj; omega⟩]
  simp

theorem ToyVec.grow_getElem?_ge {T : Type} [Inhabited T] (v : ToyVec T)
    (h : v.capacity ≠ 0) (j : Nat) (hj : v.capacity ≤ j) :
    (v.grow).elements[j]? =
      if j < v.capacity * 2 then some default else none := by
  simp only [ToyVec.grow, if_neg h]
  rw [getElem?_copy_from v.elements 0 _
    (by rw [length_allocate_in_heap]; unfold ToyVec.capacity at *; omega)]
  rw [if_neg (by unfold ToyVec.capacity at hj; omega)]
  rw [getElem?_allocate_in_heap]

theorem ToyVec.len_lt_grow_capacity {T : Type} [Inhabited T] (v : ToyVec T)
    (h : v.len ≤ v.capacity) : v.len < (v.grow).capacity := by
  by_cases hc : v.capacity = 0
  · rw [v.grow_capacity_zero hc]; omega
  · rw [v.grow_capacity_pos hc]; omega

/-! ### Facts about `push` -/

theorem ToyVec.push_len {T : Type} [Inhabited T] (v : ToyVec T) (x : T) :
    (v.push x).len = v.len + 1 := by
  unfold ToyVec.push
  by_cases h : v.len = v.capacity <;> simp [h, ToyVec.grow_len]

theorem ToyVec.push_capacity_no_grow {T : Type} [Inhabited T] (v : ToyVec T)
    (x : T) (h : v.len ≠ v.capacity) : (v.push x).capacity = v.capacity := by
  unfold ToyVec.push
  rw [if_neg h]
  simp [ToyVec.capacity]

theorem ToyVec.push_capacity_of_grow {T : Type} [Inhabited T] (v : ToyVec T)
    (x : T) (h : v.len = v.capacity) : (v.push x).capacity = (v.grow).capacity := by
  unfold ToyVec.push
  rw [if_pos h]
  simp [ToyVec.capacity]

theorem ToyVec.push_getElem?_at {T : Type} [Inhabited T] (v : ToyVec T)
    (x : T) (h : v.len ≤ v.capacity) : (v.push x).elements[v.len]? = some x := by
  unfold ToyVec.push
  by_cases hc : v.len = v.capacity
  · have hlt : v.len < (v.grow).elements.length := v.len_lt_grow_capacity h
    rw [if_pos hc]
    show ((v.grow).elements.set (v.grow).len x)[v.len]? = some x
    rw [ToyVec.grow_len]
    exact List.getElem?_set_self hlt
  · have hlt : v.len < v.elements.length := by
      unfold ToyVec.capacity at *; omega
    rw [if_neg hc]
    exact List.getElem?_set_self hlt

theorem ToyVec.push_getElem?_lt {T : Type} [Inhabited T] (v : ToyVec T)
    (x : T) (j : Nat) (hj : j < v.len) :
    (v.push x).elements[j]? = v.elements[j]? := by
  unfold ToyVec.push
  by_cases hc : v.len = v.capacity
  · have hcap : v.capacity ≠ 0 := by omega
    rw [if_pos hc]
    show ((v.grow).elements.set (v.grow).len x)[j]? = v.elements[j]?
    rw [ToyVec.grow_len]
    rw [List.getElem?_set_ne (by omega)]
    exact v.grow_getElem?_lt hcap j (by omega)
  · rw [if_neg hc]
    exact List.getElem?_set_ne (by omega)

/-! ### Facts about `pop` -/

theorem ToyVec.pop_of_empty {T : Type} [Inhabited T] (v : ToyVec T)
    (h : v.len = 0) : v.pop = (none, v) := by
  simp [ToyVec.pop, h]

theorem ToyVec.pop_fst {T : Type} [Inhabited T] (v : ToyVec T)
    (h : v.len ≠ 0) : (v.pop).1 = v.elements[v.len - 1]? := by
  simp [ToyVec.pop, h]

theorem ToyVec.pop_snd {T : Type} [Inhabited T] (v : ToyVec T)
    (h : v.len ≠ 0) :
    (v.pop).2 = { elements := v.elements.set (v.len - 1) default,
                  len := v.len - 1 } := by
  simp [ToyVec.pop, h]

/-! ### Preservation of the representation invariant -/

theorem wf_with_capacity {T : Type} [Inhabited T] (n : Nat) :
    Wf (ToyVec.with_capacity n : ToyVec T) := by
  constructor
  · simp [ToyVec.with_capacity]
  · intro j hj _
    simp only [ToyVec.with_capacity] at hj ⊢
    rw [length_allocate_in_heap] at hj
    rw [getElem?_allocate_in_heap, if_pos hj]

theorem wf_new {T : Type} [Inhabited T] : Wf (ToyVec.new : ToyVec T) :=
  wf_with_capacity 0

theorem wf_grow {T : Type} [Inhabited T] (v : ToyVec T) (h : Wf v) :
    Wf v.grow := by
  obtain ⟨hlen, hdef⟩ := h
  by_cases hc : v.capacity = 0
  · constructor
    · rw [ToyVec.grow_len]
      show v.len ≤ (v.grow).capacity
      rw [v.grow_capacity_zero hc]
      unfold ToyVec.capacity at hc; omega
    · intro j hj _
      show (v.grow).elements[j]? = some default
      have hj1 : j < (v.grow).capacity := hj
      rw [v.grow_capacity_zero hc] at hj1
      unfold ToyVec.grow
      rw [if_pos hc]
      show (allocate_in_heap 1 : List T)[j]? = some default
      rw [getElem?_allocate_in_heap, if_pos hj1]
  · constructor
    · rw [ToyVec.grow_len]
      show v.len ≤ (v.grow).capacity
      rw [v.grow_capacity_pos hc]
      unfold ToyVec.capacity at *; omega
    · intro j hj hge
      rw [ToyVec.grow_len] at hge
      have hj2 : j < (v.grow).capacity := hj
      rw [v.grow_capacity_pos hc] at hj2
      by_cases hjc : j < v.capacity
      · rw [v.grow_getElem?_lt hc j hjc]
        exact hdef j hjc hge
      · rw [v.grow_getElem?_ge hc j (by omega), if_pos hj2]

theorem wf_push {T : Type} [Inhabited T] (v : ToyVec T) (x : T) (h : Wf v) :
    Wf (v.push x) := by
  have hlc : v.len ≤ v.capacity := h.1
  constructor
  · rw [ToyVec.push_len]
    show v.len + 1 ≤ (v.push x).capacity
    by_cases hc : v.len = v.capacity
    · rw [ToyVec.push_capacity_of_grow v x hc]
      have := v.len_lt_grow_capacity hlc
      omega
    · rw [ToyVec.push_capacity_no_grow v x hc]
      unfold ToyVec.capacity at *; omega
  · intro j hj hge
    rw [ToyVec.push_len] at hge
    have hj2 : j < ((if v.len = v.capacity then v.grow else v).elements.set
        (if v.len = v.capacity then v.grow else v).len x).length := hj
    rw [List.length_set] at hj2
    show ((if v.len = v.capacity then v.grow else v).elements.set
      (if v.len = v.capacity then v.grow else v).len x)[j]? = some default
    by_cases hc : v.len = v.capacity
    · rw [if_pos hc] at hj2 ⊢
      rw [List.getElem?_set_ne (by rw [ToyVec.grow_len]; omega)]
      exact (wf_grow v h).2 j hj2 (by rw [ToyVec.grow_len]; omega)
    · rw [if_neg hc] at hj2 ⊢
      rw [List.getElem?_set_ne (by omega)]
      exact h.2 j hj2 (by omega)

theorem wf_pop {T : Type} [Inhabited T] (v : ToyVec T) (h : Wf v) :
    Wf (v.pop).2 := by
  by_cases hz : v.len = 0
  · rw [v.pop_of_empty hz]; exact h
  · rw [v.pop_snd hz]
    constructor
    · simp only [List.length_set]
      have := h.1; omega
    · intro j hj hge
      simp only [List.length_set] at hj
      simp only at hge ⊢
      by_cases hje : j = v.len - 1
      · subst hje
        exact List.getElem?_set_self (by omega)
      · rw [List.getElem?_set_ne (by omega)]
        exact h.2 j hj (by omega)

theorem reachable_wf {T : Type} [Inhabited T] (v : ToyVec T)
    (h : Reachable v) : Wf v := by
  induction h with
  | new => exact wf_new
  | with_capacity n => exact wf_with_capacity n
  | push w x _ ih => exact wf_push w x ih
  | pop w _ ih => exact wf_pop w ih

/-! ### Facts about the iterator -/

theorem Iter.step_eq {T : Type} (it : Iter T) :
    it.step = if it.pos ≥ it.len then it else { it with pos := it.pos + 1 } := by
  unfold Iter.step Iter.next
  by_cases h : it.pos ≥ it.len
  · rw [if_pos h, if_pos h]
  · rw [if_neg h, if_neg h]

theorem iter_step_iterate {T : Type} (v : ToyVec T) (k : Nat) :
    (Iter.step^[k] v.iter).elements = v.elements ∧
    (Iter.step^[k] v.iter).len = v.len ∧
    (Iter.step^[k] v.iter).pos = min k v.len := by
  induction k with
  | zero => exact ⟨rfl, rfl, by simp [ToyVec.iter]⟩
  | succ k ih =>
    obtain ⟨he, hl, hp⟩ := ih
    rw [Function.iterate_succ_apply', Iter.step_eq]
    by_cases h : (Iter.step^[k] v.iter).pos ≥ (Iter.step^[k] v.iter).len
    · rw [if_pos h]
      refine ⟨he, hl, ?_⟩
      rw [hl, hp] at h
      rw [hp]
      omega
    · rw [if_neg h]
      refine ⟨he, hl, ?_⟩
      show (Iter.step^[k] v.iter).pos + 1 = min (k + 1) v.len
      rw [hl, hp] at h
      rw [hp]
      omega

theorem iter_next_at {T : Type} (v : ToyVec T) (i : Nat) (hi : i < v.len) :
    ((Iter.step^[i] v.iter).next).1 = v.elements[i]? := by
  obtain ⟨he, hl, hp⟩ := iter_step_iterate v i
  unfold Iter.next
  rw [if_neg (by rw [hl, hp]; omega)]
  rw [he, hp]
  simp [Nat.min_eq_left (Nat.le_of_lt hi)]

theorem iter_exhausted {T : Type} (v : ToyVec T) (k : Nat) (hk : v.len ≤ k) :
    ((Iter.step^[k] v.iter).next) = (none, Iter.step^[k] v.iter) := by
  obtain ⟨_, hl, hp⟩ := iter_step_iterate v k
  unfold Iter.next
  rw [if_pos (by rw [hl, hp]; omega)]

theorem iter_stable {T : Type} (v : ToyVec T) (k : Nat) (hk : v.len ≤ k) :
    Iter.step^[k] v.iter = Iter.step^[v.len] v.iter := by
  induction k with
  | zero =>
    have : v.len = 0 := by omega
    rw [this]
  | succ k ih =>
    by_cases h : v.len ≤ k
    · rw [Function.iterate_succ_apply', ih h]
      show ((Iter.step^[v.len] v.iter).next).2 = Iter.step^[v.len] v.iter
      rw [iter_exhausted v v.len (Nat.le_refl _)]
    · have : v.len = k + 1 := by omega
      rw [this]

/-! ### Facts about `pushAll` -/

theorem pushAll_nil {T : Type} [Inhabited T] (v : ToyVec T) :
    v.pushAll [] = v := rfl

theorem pushAll_cons {T : Type} [Inhabited T] (v : ToyVec T) (x : T)
    (xs : List T) : v.pushAll (x :: xs) = (v.push x).pushAll xs := rfl

theorem pushAll_append {T : Type} [Inhabited T] (v : ToyVec T)
    (xs ys : List T) : v.pushAll (xs ++ ys) = (v.pushAll xs).pushAll ys := by
  simp [ToyVec.pushAll, List.foldl_append]

theorem pushAll_len {T : Type} [Inhabited T] (xs : List T) :
    ∀ (v : ToyVec T), (v.pushAll xs).len = v.len + xs.length := by
  induction xs with
  | nil => intro v; simp [pushAll_nil]
  | cons x xs ih =>
    intro v
    rw [pushAll_cons, ih, ToyVec.push_len]
    simp; omega

/-- The capacity progression invariant for vectors built from capacity 0:
either still untouched (capacity 0, length 0), or the capacity is the
smallest power of two that is at least the length. -/
def CapInv {T : Type} [Inhabited T] (v : ToyVec T) : Prop :=
  (v.capacity = 0 ∧ v.len = 0) ∨
  ∃ k, v.capacity = 2 ^ k ∧ v.len ≤ 2 ^ k ∧ 2 ^ k < 2 * v.len

theorem capInv_push {T : Type} [Inhabited T] (v : ToyVec T) (x : T)
    (h : CapInv v) : CapInv (v.push x) := by
  rcases h with ⟨hc, hl⟩ | ⟨k, hc, hle, hlt⟩
  · right
    refine ⟨0, ?_, ?_, ?_⟩
    · rw [ToyVec.push_capacity_of_grow v x (by omega),
        v.grow_capacity_zero hc]
      norm_num
    · rw [ToyVec.push_len]; omega
    · rw [ToyVec.push_len]; omega
  · right
    by_cases hfull : v.len = v.capacity
    · have h1 : (1:Nat) ≤ 2 ^ k := Nat.one_le_two_pow
      refine ⟨k + 1, ?_, ?_, ?_⟩
      · rw [ToyVec.push_capacity_of_grow v x hfull,
          v.grow_capacity_pos (by omega), hc, Nat.pow_succ]
      · rw [ToyVec.push_len, Nat.pow_succ]
        rw [hc] at hfull
        omega
      · rw [ToyVec.push_len, Nat.pow_succ]
        rw [hc] at hfull
        omega
    · refine ⟨k, ?_, ?_, ?_⟩
      · rw [ToyVec.push_capacity_no_grow v x hfull, hc]
      · rw [ToyVec.push_len]
        rw [hc] at hfull
        omega
      · rw [ToyVec.push_len]
        omega

theorem capInv_pushAll {T : Type} [Inhabited T] (xs : List T) :
    ∀ (v : ToyVec T), CapInv v → CapInv (v.pushAll xs) := by
  induction xs with
  | nil => intro v h; exact h
  | cons x xs ih =>
    intro v h
    rw [pushAll_cons]
    exact ih (v.push x) (capInv_push v x h)

theorem capInv_new {T : Type} [Inhabited T] : CapInv (ToyVec.new : ToyVec T) :=
  Or.inl ⟨rfl, rfl⟩

/-! ### Pushing while there is room left -/

theorem pushAll_capacity_of_room {T : Type} [Inhabited T] (xs : List T) :
    ∀ (v : ToyVec T), v.len + xs.length ≤ v.capacity →
      (v.pushAll xs).capacity = v.capacity ∧
      (v.pushAll xs).len = v.len + xs.length := by
  induction xs with
  | nil => intro v _; simp [pushAll_nil]
  | cons x xs ih =>
    intro v h
    simp only [List.length_cons] at h
    have hne : v.len ≠ v.capacity := by omega
    rw [pushAll_cons]
    have hcap := ToyVec.push_capacity_no_grow v x hne
    have hlen := ToyVec.push_len v x
    obtain ⟨h1, h2⟩ := ih (v.push x) (by rw [hcap, hlen]; omega)
    refine ⟨by rw [h1, hcap], by rw [h2, hlen]; simp; omega⟩

/-! ### The claims -/

/-- C1: starting from an empty container, after pushing any sequence of N
values the length is N; and every state reachable by `new`,
`with_capacity`, `push` and `pop` satisfies `0 <= len <= capacity`. -/
theorem C1_length_after_appends_and_len_le_capacity {T : Type} [Inhabited T] :
    (∀ (xs : List T), ((ToyVec.new : ToyVec T).pushAll xs).len = xs.length) ∧
    (∀ (v : ToyVec T), Reachable v → 0 ≤ v.len ∧ v.len ≤ v.capacity) := by
  constructor
  · intro xs
    rw [pushAll_len]
    show 0 + xs.length = xs.length
    omega
  · intro v h
    exact ⟨Nat.zero_le _, (reachable_wf v h).1⟩

theorem C1_witness :
    (((ToyVec.new : ToyVec Nat).pushAll [10, 20, 30]).len = 3) ∧
    (0 ≤ ((ToyVec.new : ToyVec Nat).push 5).len ∧
      ((ToyVec.new : ToyVec Nat).push 5).len ≤
        ((ToyVec.new : ToyVec Nat).push 5).capacity) :=
  ⟨C1_length_after_appends_and_len_le_capacity.1 [10, 20, 30],
   C1_length_after_appends_and_len_le_capacity.2 _
     (Reachable.push _ 5 Reachable.new)⟩

/-- C2: `push` grows exactly when `len == capacity` (the capacity becomes
the grown one, and is untouched otherwise), writes the value at index
`len` and increments `len`; `grow` from non-zero capacity doubles the
capacity, keeps `len`, and moves every old slot's value to the same index
of the new buffer. -/
theorem C2_push_and_grow {T : Type} [Inhabited T] (v : ToyVec T) (x : T)
    (h : v.len ≤ v.capacity) :
    ((v.len = v.capacity → (v.push x).capacity = (v.grow).capacity) ∧
     (v.len ≠ v.capacity → (v.push x).capacity = v.capacity) ∧
     (v.push x).elements[v.len]? = some x ∧
     (v.push x).len = v.len + 1) ∧
    (v.capacity ≠ 0 →
      (v.grow).capacity = 2 * v.capacity ∧
      (v.grow).len = v.len ∧
      ∀ j, j < v.capacity → (v.grow).elements[j]? = v.elements[j]?) := by
  refine ⟨⟨fun hc => v.push_capacity_of_grow x hc,
           fun hc => v.push_capacity_no_grow x hc,
           v.push_getElem?_at x h,
           v.push_len x⟩,
          fun hc => ⟨?_, v.grow_len, fun j hj => v.grow_getElem?_lt hc j hj⟩⟩
  rw [v.grow_capacity_pos hc, Nat.mul_comm]

theorem C2_witness :
    ((ToyVec.with_capacity 2 : ToyVec Nat).len ≤
      (ToyVec.with_capacity 2 : ToyVec Nat).capacity) ∧
    ((((ToyVec.with_capacity 2 : ToyVec Nat).len =
          (ToyVec.with_capacity 2 : ToyVec Nat).capacity →
        ((ToyVec.with_capacity 2 : ToyVec Nat).push 9).capacity =
          ((ToyVec.with_capacity 2 : ToyVec Nat).grow).capacity) ∧
      ((ToyVec.with_capacity 2 : ToyVec Nat).len ≠
          (ToyVec.with_capacity 2 : ToyVec Nat).capacity →
        ((ToyVec.with_capacity 2 : ToyVec Nat).push 9).capacity =
          (ToyVec.with_capacity 2 : ToyVec Nat).capacity) ∧
      ((ToyVec.with_capacity 2 : ToyVec Nat).push 9).elements[
        (ToyVec.with_capacity 2 : ToyVec Nat).len]? = some 9 ∧
      ((ToyVec.with_capacity 2 : ToyVec Nat).push 9).len =
        (ToyVec.with_capacity 2 : ToyVec Nat).len + 1) ∧
     ((ToyVec.with_capacity 2 : ToyVec Nat).capacity ≠ 0 →
       ((ToyVec.with_capacity 2 : ToyVec Nat).grow).capacity =
         2 * (ToyVec.with_capacity 2 : ToyVec Nat).capacity ∧
       ((ToyVec.with_capacity 2 : ToyVec Nat).grow).len =
         (ToyVec.with_capacity 2 : ToyVec Nat).len ∧
       ∀ j, j < (ToyVec.with_capacity 2 : ToyVec Nat).capacity →
         ((ToyVec.with_capacity 2 : ToyVec Nat).grow).elements[j]? =
           (ToyVec.with_capacity 2 : ToyVec Nat).elements[j]?)) :=
  ⟨by decide, C2_push_and_grow (ToyVec.with_capacity 2) 9 (by decide)⟩

/-- C3: `get index` is `some` exactly when `index < len` (returning the
element stored at that index, i.e. the last value assigned there: a fresh
`push` is read back at the old length, and `push`/`pop` do not disturb
reads below the live range), and `none` for every `index >= len`. -/
theorem C3_get_contract {T : Type} [Inhabited T] (v : ToyVec T) (x : T)
    (i : Nat) (h : v.len ≤ v.capacity) :
    (i < v.len → v.get i = v.elements[i]? ∧ (v.get i).isSome = true) ∧
    (v.len ≤ i → v.get i = none) ∧
    (v.push x).get v.len = some x ∧
    (∀ j, j < v.len → (v.push x).get j = v.get j) ∧
    (∀ j, j < v.len - 1 → (v.pop).2.get j = v.get j) := by
  refine ⟨?_, ?_, ?_, ?_, ?_⟩
  · intro hi
    unfold ToyVec.get
    rw [if_pos hi]
    refine ⟨rfl, ?_⟩
    have hlt : i < v.elements.length := by
      unfold ToyVec.capacity at h; omega
    rw [List.getElem?_eq_getElem hlt]
    rfl
  · intro hi
    unfold ToyVec.get
    rw [if_neg (by omega)]
  · unfold ToyVec.get
    rw [if_pos (by rw [ToyVec.push_len]; omega)]
    exact v.push_getElem?_at x h
  · intro j hj
    unfold ToyVec.get
    rw [if_pos (by rw [ToyVec.push_len]; omega), if_pos hj]
    exact v.push_getElem?_lt x j hj
  · intro j hj
    have hz : v.len ≠ 0 := by omega
    rw [v.pop_snd hz]
    unfold ToyVec.get
    rw [if_pos (by simp; omega), if_pos (by omega)]
    simp only
    rw [List.getElem?_set_ne (by omega)]

theorem C3_witness :
    ((ToyVec.new.push 7 : ToyVec Nat).len ≤ (ToyVec.new.push 7 : ToyVec Nat).capacity) ∧
    ((0 < (ToyVec.new.push 7 : ToyVec Nat).len →
       (ToyVec.new.push 7 : ToyVec Nat).get 0 =
         (ToyVec.new.push 7 : ToyVec Nat).elements[0]? ∧
       ((ToyVec.new.push 7 : ToyVec Nat).get 0).isSome = true) ∧
     ((ToyVec.new.push 7 : ToyVec Nat).len ≤ 0 →
       (ToyVec.new.push 7 : ToyVec Nat).get 0 = none) ∧
     ((ToyVec.new.push 7 : ToyVec Nat).push 8).get
       (ToyVec.new.push 7 : ToyVec Nat).len = some 8 ∧
     (∀ j, j < (ToyVec.new.push 7 : ToyVec Nat).len →
       ((ToyVec.new.push 7 : ToyVec Nat).push 8).get j =
         (ToyVec.new.push 7 : ToyVec Nat).get j) ∧
     (∀ j, j < (ToyVec.new.push 7 : ToyVec Nat).len - 1 →
       ((ToyVec.new.push 7 : ToyVec Nat).pop).2.get j =
         (ToyVec.new.push 7 : ToyVec Nat).get j)) :=
  ⟨by decide, C3_get_contract (ToyVec.new.push 7) 8 0 (by decide)⟩

/-- C4: `pop` returns `none` exactly when `len == 0`, leaving the whole
state unchanged in that case; otherwise it decrements `len`, keeps the
capacity, returns the slot value at the old `len - 1`, refills that slot
with the default value and disturbs no other slot. -/
theorem C4_pop_contract {T : Type} [Inhabited T] (v : ToyVec T)
    (h : v.len ≤ v.capacity) :
    ((v.pop).1 = none ↔ v.len = 0) ∧
    (v.len = 0 → (v.pop).2 = v) ∧
    (v.len ≠ 0 →
      (v.pop).1 = v.elements[v.len - 1]? ∧
      (v.pop).2.len = v.len - 1 ∧
      (v.pop).2.capacity = v.capacity ∧
      (v.pop).2.elements[v.len - 1]? = some default ∧
      ∀ j, j ≠ v.len - 1 → (v.pop).2.elements[j]? = v.elements[j]?) := by
  unfold ToyVec.capacity at h
  refine ⟨⟨?_, ?_⟩, ?_, ?_⟩
  · intro hn
    by_contra hz
    rw [v.pop_fst hz] at hn
    rw [List.getElem?_eq_none_iff] at hn
    omega
  · intro hz
    rw [v.pop_of_empty hz]
  · intro hz
    rw [v.pop_of_empty hz]
  · intro hz
    refine ⟨v.pop_fst hz, ?_, ?_, ?_, ?_⟩
    · rw [v.pop_snd hz]
    · rw [v.pop_snd hz]
      show (v.elements.set (v.len - 1) default).length = v.capacity
      rw [List.length_set]
      rfl
    · rw [v.pop_snd hz]
      show (v.elements.set (v.len - 1) default)[v.len - 1]? = some default
      exact List.getElem?_set_self (by omega)
    · intro j hj
      rw [v.pop_snd hz]
      show (v.elements.set (v.len - 1) default)[j]? = v.elements[j]?
      exact List.getElem?_set_ne (by omega)

theorem C4_witness :
    ((ToyVec.new.push 7 : ToyVec Nat).len ≤ (ToyVec.new.push 7 : ToyVec Nat).capacity) ∧
    ((((ToyVec.new.push 7 : ToyVec Nat).pop).1 = none ↔
        (ToyVec.new.push 7 : ToyVec Nat).len = 0) ∧
     ((ToyVec.new.push 7 : ToyVec Nat).len = 0 →
       ((ToyVec.new.push 7 : ToyVec Nat).pop).2 = ToyVec.new.push 7) ∧
     ((ToyVec.new.push 7 : ToyVec Nat).len ≠ 0 →
       ((ToyVec.new.push 7 : ToyVec Nat).pop).1 =
         (ToyVec.new.push 7 : ToyVec Nat).elements[
           (ToyVec.new.push 7 : ToyVec Nat).len - 1]? ∧
       ((ToyVec.new.push 7 : ToyVec Nat).pop).2.len =
         (ToyVec.new.push 7 : ToyVec Nat).len - 1 ∧
       ((ToyVec.new.push 7 : ToyVec Nat).pop).2.capacity =
         (ToyVec.new.push 7 : ToyVec Nat).capacity ∧
       ((ToyVec.new.push 7 : ToyVec Nat).pop).2.elements[
         (ToyVec.new.push 7 : ToyVec Nat).len - 1]? = some default ∧
       ∀ j, j ≠ (ToyVec.new.push 7 : ToyVec Nat).len - 1 →
         ((ToyVec.new.push 7 : ToyVec Nat).pop).2.elements[j]? =
           (ToyVec.new.push 7 : ToyVec Nat).elements[j]?)) :=
  ⟨by decide, C4_pop_contract (ToyVec.new.push 7) (by decide)⟩

/-- C5: iterating a container of length N yields, on the i-th `next` call,
exactly `get i` (a present value) for every i < N; after N calls the
iterator is exhausted: `next` returns `none` and leaves the iterator state
unchanged, so every subsequent call keeps returning `none`. -/
theorem C5_traversal {T : Type} [Inhabited T] (v : ToyVec T)
    (h : v.len ≤ v.capacity) :
    (∀ i, i < v.len →
      ((Iter.step^[i] v.iter).next).1 = v.get i ∧ (v.get i).isSome = true) ∧
    (Iter.step^[v.len] v.iter).next = (none, Iter.step^[v.len] v.iter) ∧
    (∀ k, v.len ≤ k → Iter.step^[k] v.iter = Iter.step^[v.len] v.iter) := by
  refine ⟨?_, iter_exhausted v v.len (Nat.le_refl _), iter_stable v⟩
  intro i hi
  rw [iter_next_at v i hi]
  unfold ToyVec.get
  rw [if_pos hi]
  refine ⟨rfl, ?_⟩
  have hlt : i < v.elements.length := by
    unfold ToyVec.capacity at h; omega
  rw [List.getElem?_eq_getElem hlt]
  rfl

theorem C5_witness :
    ((ToyVec.pushAll ToyVec.new [10, 20] : ToyVec Nat).len ≤
      (ToyVec.pushAll ToyVec.new [10, 20] : ToyVec Nat).capacity) ∧
    ((∀ i, i < (ToyVec.pushAll ToyVec.new [10, 20] : ToyVec Nat).len →
       ((Iter.step^[i] (ToyVec.pushAll ToyVec.new [10, 20] : ToyVec Nat).iter).next).1 =
         (ToyVec.pushAll ToyVec.new [10, 20] : ToyVec Nat).get i ∧
       ((ToyVec.pushAll ToyVec.new [10, 20] : ToyVec Nat).get i).isSome = true) ∧
     (Iter.step^[(ToyVec.pushAll ToyVec.new [10, 20] : ToyVec Nat).len]
         (ToyVec.pushAll ToyVec.new [10, 20] : ToyVec Nat).iter).next =
       (none, Iter.step^[(ToyVec.pushAll ToyVec.new [10, 20] : ToyVec Nat).len]
         (ToyVec.pushAll ToyVec.new [10, 20] : ToyVec Nat).iter) ∧
     (∀ k, (ToyVec.pushAll ToyVec.new [10, 20] : ToyVec Nat).len ≤ k →
       Iter.step^[k] (ToyVec.pushAll ToyVec.new [10, 20] : ToyVec Nat).iter =
         Iter.step^[(ToyVec.pushAll ToyVec.new [10, 20] : ToyVec Nat).len]
           (ToyVec.pushAll ToyVec.new [10, 20] : ToyVec Nat).iter)) :=
  ⟨by decide, C5_traversal (ToyVec.pushAll ToyVec.new [10, 20]) (by decide)⟩

/-- C6: `push x` immediately followed by `pop` returns `x` and restores
the previous length; and no operation reduces the capacity (`push` and
`grow` can only enlarge it, `pop` keeps it). -/
theorem C6_roundtrip_and_capacity_monotone {T : Type} [Inhabited T]
    (v : ToyVec T) (x : T) (h : v.len ≤ v.capacity) :
    (((v.push x).pop).1 = some x ∧ ((v.push x).pop).2.len = v.len) ∧
    (v.capacity ≤ (v.push x).capacity ∧
     (v.pop).2.capacity = v.capacity ∧
     v.capacity ≤ (v.grow).capacity) := by
  have hz : (v.push x).len ≠ 0 := by rw [ToyVec.push_len]; omega
  have hgrow : v.capacity ≤ (v.grow).capacity := by
    by_cases hc : v.capacity = 0
    · rw [v.grow_capacity_zero hc]; omega
    · rw [v.grow_capacity_pos hc]; omega
  refine ⟨⟨?_, ?_⟩, ?_, ?_, hgrow⟩
  · rw [(v.push x).pop_fst hz, ToyVec.push_len]
    show (v.push x).elements[v.len + 1 - 1]? = some x
    have : v.len + 1 - 1 = v.len := by omega
    rw [this]
    exact v.push_getElem?_at x h
  · rw [(v.push x).pop_snd hz]
    show (v.push x).len - 1 = v.len
    rw [ToyVec.push_len]
    omega
  · by_cases hc : v.len = v.capacity
    · rw [v.push_capacity_of_grow x hc]; exact hgrow
    · rw [v.push_capacity_no_grow x hc]
  · by_cases hz2 : v.len = 0
    · rw [v.pop_of_empty hz2]
    · rw [v.pop_snd hz2]
      show (v.elements.set (v.len - 1) default).length = v.capacity
      rw [List.length_set]
      rfl

theorem C6_witness :
    ((ToyVec.new.push 1 : ToyVec Nat).len ≤ (ToyVec.new.push 1 : ToyVec Nat).capacity) ∧
    ((((((ToyVec.new.push 1 : ToyVec Nat).push 2).pop).1 = some 2) ∧
       ((((ToyVec.new.push 1 : ToyVec Nat).push 2).pop).2.len =
         (ToyVec.new.push 1 : ToyVec Nat).len)) ∧
     ((ToyVec.new.push 1 : ToyVec Nat).capacity ≤
        ((ToyVec.new.push 1 : ToyVec Nat).push 2).capacity ∧
      ((ToyVec.new.push 1 : ToyVec Nat).pop).2.capacity =
        (ToyVec.new.push 1 : ToyVec Nat).capacity ∧
      (ToyVec.new.push 1 : ToyVec Nat).capacity ≤
        ((ToyVec.new.push 1 : ToyVec Nat).grow).capacity)) :=
  ⟨by decide, C6_roundtrip_and_capacity_monotone (ToyVec.new.push 1) 2 (by decide)⟩

/-- C7: a container built by appends from `new` has capacity 0 while
empty; the first growth brings the capacity to 1 and every further growth
doubles it, so after any non-empty sequence of appends the capacity is a
power of two, and it is the smallest power of two that is at least the
length. -/
theorem C7_capacity_progression {T : Type} [Inhabited T] (xs : List T)
    (h : xs ≠ []) :
    (ToyVec.new : ToyVec T).capacity = 0 ∧
    (∀ w : ToyVec T, w.capacity = 0 → (w.grow).capacity = 1) ∧
    (∀ w : ToyVec T, w.capacity ≠ 0 → (w.grow).capacity = 2 * w.capacity) ∧
    ∃ k, ((ToyVec.new : ToyVec T).pushAll xs).capacity = 2 ^ k ∧
      ((ToyVec.new : ToyVec T).pushAll xs).len ≤ 2 ^ k ∧
      2 ^ k < 2 * ((ToyVec.new : ToyVec T).pushAll xs).len := by
  refine ⟨rfl, fun w hw => w.grow_capacity_zero hw,
    fun w hw => by rw [w.grow_capacity_pos hw, Nat.mul_comm], ?_⟩
  have hinv := capInv_pushAll xs (ToyVec.new : ToyVec T) capInv_new
  have hlen : ((ToyVec.new : ToyVec T).pushAll xs).len = xs.length := by
    rw [pushAll_len]
    show 0 + xs.length = xs.length
    omega
  have hpos : 0 < xs.length := List.length_pos.mpr h
  rcases hinv with ⟨_, hl⟩ | ⟨k, hc, hle, hlt⟩
  · rw [hlen] at hl; omega
  · exact ⟨k, hc, hle, hlt⟩

theorem C7_witness :
    ([10, 20, 30] : List Nat) ≠ [] ∧
    ((ToyVec.new : ToyVec Nat).capacity = 0 ∧
     (∀ w : ToyVec Nat, w.capacity = 0 → (w.grow).capacity = 1) ∧
     (∀ w : ToyVec Nat, w.capacity ≠ 0 → (w.grow).capacity = 2 * w.capacity) ∧
     ∃ k, ((ToyVec.new : ToyVec Nat).pushAll [10, 20, 30]).capacity = 2 ^ k ∧
       ((ToyVec.new : ToyVec Nat).pushAll [10, 20, 30]).len ≤ 2 ^ k ∧
       2 ^ k < 2 * ((ToyVec.new : ToyVec Nat).pushAll [10, 20, 30]).len) :=
  ⟨by decide, C7_capacity_progression [10, 20, 30] (by decide)⟩

/-- C8: in every reachable state, each slot between the length and the
capacity holds the default value; `with_capacity n` pre-fills all `n`
slots with the default, `pop` refills the vacated slot with the default,
and the slots a growth adds beyond the copied ones are default-filled. -/
theorem C8_placeholder_beyond_live_range {T : Type} [Inhabited T]
    (v : ToyVec T) (h : Reachable v) :
    (∀ j, v.len ≤ j → j < v.capacity → v.elements[j]? = some (default : T)) ∧
    (∀ n j, j < n →
      (ToyVec.with_capacity n : ToyVec T).elements[j]? = some default) ∧
    (v.len ≠ 0 → (v.pop).2.elements[v.len - 1]? = some default) ∧
    (v.capacity ≠ 0 → ∀ j, v.capacity ≤ j → j < 2 * v.capacity →
      (v.grow).elements[j]? = some default) := by
  have hwf := reachable_wf v h
  refine ⟨?_, ?_, ?_, ?_⟩
  · intro j hge hlt
    exact hwf.2 j hlt hge
  · intro n j hj
    show (allocate_in_heap n : List T)[j]? = some default
    rw [getElem?_allocate_in_heap, if_pos hj]
  · intro hz
    rw [v.pop_snd hz]
    show (v.elements.set (v.len - 1) default)[v.len - 1]? = some default
    have := hwf.1
    exact List.getElem?_set_self (by omega)
  · intro hc j hge hlt
    rw [v.grow_getElem?_ge hc j hge, if_pos (by omega)]

theorem C8_witness :
    Reachable ((ToyVec.new.push 4 : ToyVec Nat).pop).2 ∧
    ((∀ j, ((ToyVec.new.push 4 : ToyVec Nat).pop).2.len ≤ j →
       j < ((ToyVec.new.push 4 : ToyVec Nat).pop).2.capacity →
       ((ToyVec.new.push 4 : ToyVec Nat).pop).2.elements[j]? = some (default : Nat)) ∧
     (∀ n j, j < n →
       (ToyVec.with_capacity n : ToyVec Nat).elements[j]? = some default) ∧
     (((ToyVec.new.push 4 : ToyVec Nat).pop).2.len ≠ 0 →
       ((((ToyVec.new.push 4 : ToyVec Nat).pop).2.pop).2.elements[
         ((ToyVec.new.push 4 : ToyVec Nat).pop).2.len - 1]? = some default)) ∧
     (((ToyVec.new.push 4 : ToyVec Nat).pop).2.capacity ≠ 0 →
       ∀ j, ((ToyVec.new.push 4 : ToyVec Nat).pop).2.capacity ≤ j →
         j < 2 * ((ToyVec.new.push 4 : ToyVec Nat).pop).2.capacity →
         (((ToyVec.new.push 4 : ToyVec Nat).pop).2.grow).elements[j]? =
           some default)) :=
  ⟨Reachable.pop _ (Reachable.push _ 4 Reachable.new),
   C8_placeholder_beyond_live_range ((ToyVec.new.push 4 : ToyVec Nat).pop).2
     (Reachable.pop _ (Reachable.push _ 4 Reachable.new))⟩

/-- C9: under the length invariant, every slice access the operations
perform is within the buffer's bounds — the write in `push` (after the
conditional grow), the slot access in `pop`, the read in `get`, every
write of `grow`'s copy loop, and the read in the iterator's `next` at any
point of the traversal — so the out-of-bounds panic branch is never taken. -/
theorem C9_indexing_in_bounds {T : Type} [Inhabited T] (v : ToyVec T)
    (h : v.len ≤ v.capacity) :
    v.pushIndexOk ∧ v.popIndexOk ∧ v.growIndexOk ∧
    (∀ i, v.getIndexOk i) ∧
    (∀ k, (Iter.step^[k] v.iter).nextIndexOk) := by
  have hlen : v.len ≤ v.elements.length := h
  refine ⟨?_, ?_, ?_, ?_, ?_⟩
  · unfold ToyVec.pushIndexOk
    by_cases hc : v.len = v.capacity
    · rw [if_pos hc, ToyVec.grow_len]
      exact v.len_lt_grow_capacity h
    · rw [if_neg hc]
      unfold ToyVec.capacity at *
      omega
  · intro hz
    omega
  · intro hc i hi
    rw [length_allocate_in_heap]
    unfold ToyVec.capacity at *
    omega
  · intro i hi
    omega
  · intro k
    obtain ⟨he, hl, _⟩ := iter_step_iterate v k
    intro hp
    rw [hl] at hp
    rw [he]
    omega

theorem C9_witness :
    ((ToyVec.new.push 3 : ToyVec Nat).len ≤ (ToyVec.new.push 3 : ToyVec Nat).capacity) ∧
    ((ToyVec.new.push 3 : ToyVec Nat).pushIndexOk ∧
     (ToyVec.new.push 3 : ToyVec Nat).popIndexOk ∧
     (ToyVec.new.push 3 : ToyVec Nat).growIndexOk ∧
     (∀ i, (ToyVec.new.push 3 : ToyVec Nat).getIndexOk i) ∧
     (∀ k, (Iter.step^[k] (ToyVec.new.push 3 : ToyVec Nat).iter).nextIndexOk)) :=
  ⟨by decide, C9_indexing_in_bounds (ToyVec.new.push 3) (by decide)⟩

/-- C10: a container created with `with_capacity n` (n > 0) keeps capacity
exactly `n` through its first `n` appends (with the length tracking the
number of appends, so no reallocation happens while there is room), and
the `(n+1)`-th append doubles the capacity to exactly `2 * n`. -/
theorem C10_with_capacity_keeps_then_doubles {T : Type} [Inhabited T]
    (n : Nat) (hn : 0 < n) (xs : List T) :
    (xs.length ≤ n →
      ((ToyVec.with_capacity n : ToyVec T).pushAll xs).capacity = n ∧
      ((ToyVec.with_capacity n : ToyVec T).pushAll xs).len = xs.length) ∧
    (xs.length = n + 1 →
      ((ToyVec.with_capacity n : ToyVec T).pushAll xs).capacity = 2 * n) := by
  have hcap : (ToyVec.with_capacity n : ToyVec T).capacity = n := by
    show (allocate_in_heap n : List T).length = n
    exact length_allocate_in_heap n
  have hlen0 : (ToyVec.with_capacity n : ToyVec T).len = 0 := rfl
  constructor
  · intro hroom
    obtain ⟨h1, h2⟩ := pushAll_capacity_of_room xs
      (ToyVec.with_capacity n : ToyVec T) (by rw [hcap, hlen0]; omega)
    rw [h1, h2, hcap, hlen0]
    exact ⟨rfl, by omega⟩
  · intro hfull
    have hne : xs ≠ [] := by
      intro he; rw [he] at hfull; simp at hfull
    rw [← List.dropLast_append_getLast hne, pushAll_append]
    have hdl : xs.dropLast.length = n := by
      rw [List.length_dropLast, hfull]
      omega
    obtain ⟨h1, h2⟩ := pushAll_capacity_of_room xs.dropLast
      (ToyVec.with_capacity n : ToyVec T) (by rw [hcap, hlen0, hdl]; omega)
    rw [hcap] at h1
    rw [hlen0, hdl] at h2
    rw [pushAll_cons, pushAll_nil]
    rw [ToyVec.push_capacity_of_grow _ _ (by rw [h1, h2]; omega)]
    rw [ToyVec.grow_capacity_pos _ (by rw [h1]; omega), h1, Nat.mul_comm]

theorem C10_witness :
    0 < 2 ∧
    ((([1, 2, 3] : List Nat).length ≤ 2 →
       ((ToyVec.with_capacity 2 : ToyVec Nat).pushAll [1, 2, 3]).capacity = 2 ∧
       ((ToyVec.with_capacity 2 : ToyVec Nat).pushAll [1, 2, 3]).len =
         ([1, 2, 3] : List Nat).length) ∧
     (([1, 2, 3] : List Nat).length = 2 + 1 →
       ((ToyVec.with_capacity 2 : ToyVec Nat).pushAll [1, 2, 3]).capacity = 2 * 2)) :=
  ⟨by decide, C10_with_capacity_keeps_then_doubles 2 (by decide) [1, 2, 3]⟩

end ToyVecLib
